import Mathlib

set_option maxRecDepth 10000

/-!
Verification development for the samwise presence daemon (src/main.rs).

The program polls `git diff`, deduplicates against the last seen diff,
summarizes new diffs with a language model, truncates the response with
`String::truncate(120)`, and sends the resulting activity (or a clear
request, as `Option<Activity>`) over an mpsc channel to `rpc_thread`,
which applies each message to the Discord RPC connection in order and,
once the channel closes, performs a final blocking join.

Modelling conventions:
- A string is a `List Char`; `utf8Len` is its UTF-8 byte length, matching
  the byte-based semantics of Rust `String` lengths.
- `rustTruncate cap s` models `String::truncate(cap)`: a no-op when the
  string has at most `cap` bytes, a cut at byte `cap` when that position
  is a character boundary, and `none` (a Rust panic) otherwise.
- `tick` models one iteration of the poll loop in `main`; the results of
  `get_diff` and of the agent prompt are inputs (oracles), the messages
  sent on the channel are collected in the outcome, and `sendOk` says
  whether the channel receiver is still alive (a send on a dead channel
  hits the `.unwrap()` and panics). `runLoop` iterates `tick` over a
  finite list of tick inputs.
- `rpc_thread` models the session thread after the handshake machinery:
  the ready wait result, the outcome of each RPC command, and the list of
  messages successfully sent before the channel closed are inputs; the
  output is the thread result together with the trace of commands issued
  to the Discord client, in order. The mpsc channel of the standard
  library is FIFO and lossless for sent items, so the message list is
  consumed in send order.
- `anyhow::Context` is modelled by prefixing the context text to the
  error message.
-/

/-- UTF-8 byte length of a string, one character at a time. -/
def utf8Len : List Char → Nat
  | [] => 0
  | c :: rest => c.utf8Size + utf8Len rest

/-- Core of `String::truncate`: `truncAux b s` walks `s` with `b` bytes of
budget left. When the string ends first the whole string was short enough
and nothing is cut; when the budget reaches zero at a character boundary
the rest is dropped; when the budget runs out inside a character the Rust
call panics, modelled as `none`. -/
def truncAux : Nat → List Char → Option (List Char)
  | _, [] => some []
  | 0, _ :: _ => some []
  | b+1, c :: rest =>
    if c.utf8Size ≤ b + 1 then (truncAux (b + 1 - c.utf8Size) rest).map (fun t => c :: t)
    else none

/-- Model of `response.truncate(cap)` from `main` (the source uses cap 120):
keep the longest prefix of at most `cap` UTF-8 bytes, with `none` standing
for the panic raised when byte `cap` is not a character boundary. -/
def rustTruncate (cap : Nat) (s : List Char) : Option (List Char) :=
  truncAux cap s

/-- One tick input: the result of `get_diff()` and the result of the agent
prompt as a function of the diff passed as context. -/
structure TickInput where
  diffRes : Except String (List Char)
  summRes : List Char → Except String (List Char)

/-- Outcome of one tick (or of a run of ticks): normal completion with the
messages sent on the channel and the final `last_diff`, early return of an
error (the `?` propagation in `main`), or a panic (from `String::truncate`
off a character boundary, or from `send(..).unwrap()` on a closed
channel). Messages are `Option (List Char)` exactly as the channel payload
`Option<Activity>`: `some text` sets the activity details, `none` clears. -/
inductive TickOutcome
  | ok (sent : List (Option (List Char))) (last : Option (List Char))
  | err (sent : List (Option (List Char))) (last : Option (List Char)) (e : String)
  | panicked (sent : List (Option (List Char)))
deriving DecidableEq

/-- Model of one iteration of the poll loop in `main`: get the diff, send
a clear when it is empty, skip when it equals `last_diff`, otherwise
prompt the agent, truncate the response to 120 bytes, send the activity
and update `last_diff`. `sendOk` is true while the channel receiver (the
session thread) is alive; the source unwraps the send result, so a send
on a dead channel panics. -/
def tick (sendOk : Bool) (i : TickInput) (last : Option (List Char)) : TickOutcome :=
  match i.diffRes with
  | .error e => .err [] last ("failed to get diff: " ++ e)
  | .ok diff =>
    if diff = [] then
      (if sendOk then .ok [none] last else .panicked [])
    else if some diff = last then
      .ok [] last
    else
      match i.summRes diff with
      | .error e => .err [] last ("failed to run prompt: " ++ e)
      | .ok response =>
        match rustTruncate 120 response with
        | none => .panicked []
        | some t => if sendOk then .ok [some t] (some diff) else .panicked []

/-- Sequencing of tick outcomes: continue with `k` from the state reached
when the first outcome completed normally, accumulating sent messages;
an error or panic stops the run. -/
def stepOut (o : TickOutcome) (k : Option (List Char) → TickOutcome) : TickOutcome :=
  match o with
  | .ok s l =>
    match k l with
    | .ok s2 l2 => .ok (s ++ s2) l2
    | .err s2 l2 e => .err (s ++ s2) l2 e
    | .panicked s2 => .panicked (s ++ s2)
  | .err s l e => .err s l e
  | .panicked s => .panicked s

/-- Model of the poll loop of `main` over a finite list of tick inputs,
starting from a given `last_diff` (`None` at program start, line 62). -/
def runLoop (sendOk : Bool) : List TickInput → Option (List Char) → TickOutcome
  | [], last => .ok [] last
  | i :: rest, last => stepOut (tick sendOk i last) (runLoop sendOk rest)

/-- Commands issued by the session thread to the Discord RPC client. The
observational log-only handlers (`on_error`, `on_connected`,
`on_disconnected`) never influence control flow and are not modelled. -/
inductive Command
  | setActivity (a : List Char)
  | clearActivity
  | blockOn
deriving DecidableEq

/-- Translation of a channel message to the RPC command the session thread
issues for it: `Some(activity)` sets, `None` clears (lines 132 to 143). -/
def toCommand : Option (List Char) → Command
  | some a => .setActivity a
  | none => .clearActivity

/-- Context text attached to a failed activity command, from the source. -/
def cmdContext : Option (List Char) → String
  | some _ => "failed to set Discord activity"
  | none => "failed to clear Discord activity"

/-- Context wrapping of the final `block_on` result, from the source. -/
def joinContext : Except String Unit → Except String Unit
  | .ok _ => .ok ()
  | .error e => .error ("failed to join Discord RPC client: " ++ e)

/-- Model of the `while let Ok(activity) = presence_rx.recv()` loop of
`rpc_thread` followed by `block_on`: consume the messages sent before the
channel closed, in send order (std mpsc is FIFO and lossless), issuing one
command per message; a command failure returns that error immediately;
when the list is exhausted (channel closed) issue the final blocking join.
Returns the thread result and the trace of commands issued. `oracle` gives
the result of each RPC command. -/
def sessionConsume (oracle : Command → Except String Unit) :
    List (Option (List Char)) → Except String Unit × List Command
  | [] => (joinContext (oracle .blockOn), [.blockOn])
  | m :: rest =>
    match oracle (toCommand m) with
    | .ok _ =>
      let r := sessionConsume oracle rest
      (r.1, toCommand m :: r.2)
    | .error e => (.error (cmdContext m ++ ": " ++ e), [toCommand m])

/-- Model of `rpc_thread`: wait for the ready event (its result is the
`readyRes` input, with the context text from the source), then consume the
channel and join. -/
def rpc_thread (readyRes : Except String Unit) (oracle : Command → Except String Unit)
    (msgs : List (Option (List Char))) : Except String Unit × List Command :=
  match readyRes with
  | .error e => (.error ("failed to wait for ready state: " ++ e), [])
  | .ok _ => sessionConsume oracle msgs

/-- Latin small letter e with acute accent: a two-byte UTF-8 character. -/
def eAcute : Char := Char.ofNat 233

theorem truncAux_nil (cap : Nat) : truncAux cap [] = some [] := by
  cases cap <;> rfl

theorem truncAux_zero (c : Char) (rest : List Char) : truncAux 0 (c :: rest) = some [] := rfl

theorem truncAux_succ (b : Nat) (c : Char) (rest : List Char) :
    truncAux (b + 1) (c :: rest) =
      if c.utf8Size ≤ b + 1 then (truncAux (b + 1 - c.utf8Size) rest).map (fun t => c :: t)
      else none := rfl

theorem length_le_utf8Len (s : List Char) : s.length ≤ utf8Len s := by
  induction s with
  | nil => simp [utf8Len]
  | cons c rest ih =>
    have hc := Char.utf8Size_pos c
    simp only [List.length_cons, utf8Len]
    omega

theorem truncAux_of_le : ∀ (s : List Char) (cap : Nat), utf8Len s ≤ cap → truncAux cap s = some s := by
  intro s
  induction s with
  | nil => intro cap _; exact truncAux_nil cap
  | cons c rest ih =>
    intro cap h
    have hc := Char.utf8Size_pos c
    have hlen : utf8Len (c :: rest) = c.utf8Size + utf8Len rest := rfl
    rw [hlen] at h
    match cap with
    | 0 => omega
    | b+1 =>
      rw [truncAux_succ, if_pos (by omega), ih (b + 1 - c.utf8Size) (by omega)]
      rfl

theorem truncAux_spec : ∀ (s : List Char) (cap : Nat) (t : List Char), truncAux cap s = some t →
    utf8Len t ≤ cap ∧ t <+: s ∧ (cap < utf8Len s → utf8Len t = cap) := by
  intro s
  induction s with
  | nil =>
    intro cap t h
    rw [truncAux_nil] at h
    cases h
    refine ⟨by simp [utf8Len], ⟨[], rfl⟩, ?_⟩
    intro hlt
    simp [utf8Len] at hlt
  | cons c rest ih =>
    intro cap t h
    have hc := Char.utf8Size_pos c
    match cap with
    | 0 =>
      rw [truncAux_zero] at h
      cases h
      exact ⟨Nat.le_refl 0, ⟨c :: rest, rfl⟩, fun _ => rfl⟩
    | b+1 =>
      rw [truncAux_succ] at h
      by_cases hsz : c.utf8Size ≤ b + 1
      · rw [if_pos hsz] at h
        cases hmap : truncAux (b + 1 - c.utf8Size) rest with
        | none =>
          rw [hmap] at h
          exact absurd h (by simp)
        | some t0 =>
          rw [hmap] at h
          have ht : t = c :: t0 := by simpa using h.symm
          subst ht
          obtain ⟨ih1, ⟨u, hu⟩, ih3⟩ := ih (b + 1 - c.utf8Size) t0 hmap
          have hlen : utf8Len (c :: t0) = c.utf8Size + utf8Len t0 := rfl
          have hlens : utf8Len (c :: rest) = c.utf8Size + utf8Len rest := rfl
          refine ⟨by rw [hlen]; omega, ⟨u, by rw [List.cons_append, hu]⟩, ?_⟩
          intro hlt
          rw [hlens] at hlt
          have hrest : b + 1 - c.utf8Size < utf8Len rest := by omega
          have := ih3 hrest
          rw [hlen]
          omega
      · rw [if_neg hsz] at h
        exact absurd h (by simp)

/-- C1 (amended). The truncation in `main` operates on UTF-8 bytes, not on
characters: whenever `response.truncate(120)` does not panic, the result
has at most 120 bytes (hence at most 120 characters), is a prefix of the
original, equals the original when the original has at most 120 bytes,
has exactly 120 bytes when the original has more than 120 bytes, and the
truncation is idempotent. -/
theorem rustTruncate_spec (s t : List Char) (h : rustTruncate 120 s = some t) :
    utf8Len t ≤ 120 ∧ t.length ≤ 120 ∧ t <+: s ∧ (utf8Len s ≤ 120 → t = s) ∧
      (120 < utf8Len s → utf8Len t = 120) ∧ rustTruncate 120 t = some t := by
  obtain ⟨h1, h2, h3⟩ := truncAux_spec s 120 t h
  refine ⟨h1, le_trans (length_le_utf8Len t) h1, h2, ?_, h3, truncAux_of_le t 120 h1⟩
  intro hle
  have hs : truncAux 120 s = some s := truncAux_of_le s 120 hle
  have h' : truncAux 120 s = some t := h
  rw [hs] at h'
  exact (Option.some.inj h').symm

/-- C1 witness: a one-character string passes through the truncation
unchanged and satisfies every conjunct. -/
theorem rustTruncate_spec_witness :
    utf8Len ['a'] ≤ 120 ∧ List.length ['a'] ≤ 120 ∧ ['a'] <+: ['a'] ∧
      (utf8Len ['a'] ≤ 120 → ['a'] = ['a']) ∧ (120 < utf8Len ['a'] → utf8Len ['a'] = 120) ∧
      rustTruncate 120 ['a'] = some ['a'] :=
  rustTruncate_spec ['a'] ['a'] (by decide)

/-- C1 counterexample. The claim counts characters, the code counts bytes:
a string of 121 two-byte characters (more than 120 characters) is cut to
60 characters, not 120, and a string of 61 two-byte characters (at most
120 characters) is not left unchanged. -/
theorem rustTruncate_char_count_cex :
    rustTruncate 120 (List.replicate 121 eAcute) = some (List.replicate 60 eAcute) ∧
      (List.replicate 60 eAcute).length ≠ 120 ∧
      120 < (List.replicate 121 eAcute).length ∧
      rustTruncate 120 (List.replicate 61 eAcute) = some (List.replicate 60 eAcute) ∧
      (List.replicate 61 eAcute).length ≤ 120 ∧
      List.replicate 60 eAcute ≠ List.replicate 61 eAcute :=
  ⟨by decide, by decide, by decide, by decide, by decide, by decide⟩

/-- Summarizer stub for ticks whose outcome must not depend on it. -/
def dummySumm : List Char → Except String (List Char) :=
  fun _ => .error "unused"

/-- C3. Every tick whose diff is the empty string sends exactly one clear
message (`None`) and leaves `last_diff` unchanged, one clear per empty
tick no matter how many empty ticks run in a row. -/
theorem tick_empty_clears (inputs : List TickInput) (last : Option (List Char))
    (h : ∀ i ∈ inputs, i.diffRes = .ok []) :
    runLoop true inputs last = .ok (List.replicate inputs.length none) last := by
  induction inputs with
  | nil => rfl
  | cons i rest ih =>
    have hi : i.diffRes = .ok [] := h i (by simp)
    have hrest : ∀ j ∈ rest, j.diffRes = .ok [] := fun j hj => h j (by simp [hj])
    have ht : tick true i last = .ok [none] last := by
      unfold tick
      rw [hi]
      simp
    simp only [runLoop, ht, stepOut, ih hrest, List.length_cons, List.replicate_succ]
    rfl

/-- C3 witness: two consecutive empty ticks send two clears. -/
theorem tick_empty_clears_witness :
    runLoop true [⟨.ok [], dummySumm⟩, ⟨.ok [], dummySumm⟩] none =
      .ok (List.replicate (List.length [(⟨.ok [], dummySumm⟩ : TickInput), ⟨.ok [], dummySumm⟩]) none) none :=
  tick_empty_clears [⟨.ok [], dummySumm⟩, ⟨.ok [], dummySumm⟩] none
    (by intro j hj; simp at hj; subst hj; rfl)

/-- C4. A tick whose non-empty diff equals `last_diff` sends nothing and
leaves `last_diff` unchanged; the outcome is the same for every summarizer
oracle, so the summarizer is not invoked. -/
theorem tick_dedup (sendOk : Bool) (d : List Char)
    (summ : List Char → Except String (List Char)) (hd : d ≠ []) :
    tick sendOk ⟨.ok d, summ⟩ (some d) = .ok [] (some d) := by
  unfold tick
  simp [hd]

/-- C4 witness: a repeated one-character diff is skipped. -/
theorem tick_dedup_witness :
    tick true ⟨.ok ['x'], dummySumm⟩ (some ['x']) = .ok [] (some ['x']) :=
  tick_dedup true ['x'] dummySumm (by decide)

/-- C5 (amended). A tick whose non-empty diff differs from `last_diff` and
whose summarizer call succeeds sends exactly one `SetStatus` message with
the byte-truncated response and updates `last_diff` to the new diff,
provided byte 120 of the response falls on a character boundary; when it
falls inside a multi-byte character, `String::truncate` panics and the
tick sends nothing and updates nothing. -/
theorem tick_new_diff (d r : List Char) (summ : List Char → Except String (List Char))
    (last : Option (List Char)) (hd : d ≠ []) (hne : some d ≠ last) (hs : summ d = .ok r) :
    (∀ t, rustTruncate 120 r = some t →
        tick true ⟨.ok d, summ⟩ last = .ok [some t] (some d)) ∧
      (rustTruncate 120 r = none → tick true ⟨.ok d, summ⟩ last = .panicked []) := by
  constructor
  · intro t ht
    unfold tick
    simp [hd, hne, hs, ht]
  · intro ht
    unfold tick
    simp [hd, hne, hs, ht]

/-- C5 witness: a fresh one-character diff with a short summary sends that
summary and records the diff. -/
theorem tick_new_diff_witness :
    tick true ⟨.ok ['x'], fun _ => .ok ['y']⟩ none = .ok [some ['y']] (some ['x']) :=
  (tick_new_diff ['x'] ['y'] (fun _ => .ok ['y']) none (by decide) (by decide) rfl).1
    ['y'] (by decide)

/-- Summarizer whose response has 121 bytes with byte 120 inside its final
two-byte character, the panic case of `String::truncate(120)`. -/
def panicSumm : List Char → Except String (List Char) :=
  fun _ => .ok (List.replicate 119 'a' ++ [eAcute])

/-- C5 counterexample. The summarizer call succeeds, yet the tick sends no
`SetStatus` message and does not update `last_diff`: byte 120 of the
response falls inside a two-byte character, so `response.truncate(120)`
panics. -/
theorem tick_new_diff_panic_cex :
    tick true ⟨.ok ['x'], panicSumm⟩ none = .panicked [] ∧
      tick true ⟨.ok ['x'], panicSumm⟩ none ≠
        .ok [some (List.replicate 119 'a' ++ [eAcute])] (some ['x']) :=
  ⟨by decide, by decide⟩

/-- C10. The three-tick diff sequence `d`, empty, `d` (for non-empty `d`
and a summarizer that succeeds on the first tick) sends the activity, then
a clear, then nothing: the clear tick does not reset `last_diff`, so the
reappearing identical diff is deduplicated and the last message sent is
still the clear. -/
theorem pollLoop_set_clear_dedup (d r t : List Char)
    (s1 s2 s3 : List Char → Except String (List Char))
    (hd : d ≠ []) (hs : s1 d = .ok r) (ht : rustTruncate 120 r = some t) :
    runLoop true [⟨.ok d, s1⟩, ⟨.ok [], s2⟩, ⟨.ok d, s3⟩] none =
      .ok [some t, none] (some d) := by
  have h1 : tick true ⟨.ok d, s1⟩ none = .ok [some t] (some d) := by
    unfold tick
    simp [hd, hs, ht]
  have h2 : tick true ⟨.ok [], s2⟩ (some d) = .ok [none] (some d) := by
    unfold tick
    simp
  have h3 : tick true ⟨.ok d, s3⟩ (some d) = .ok [] (some d) := by
    unfold tick
    simp [hd]
  simp [runLoop, stepOut, h1, h2, h3]

/-- C10 witness: the concrete sequence diff, empty, diff with a one-letter
summary sends set then clear then nothing. -/
theorem pollLoop_set_clear_dedup_witness :
    runLoop true [⟨.ok ['x'], fun _ => .ok ['y']⟩, ⟨.ok [], dummySumm⟩, ⟨.ok ['x'], dummySumm⟩]
        none = .ok [some ['y'], none] (some ['x']) :=
  pollLoop_set_clear_dedup ['x'] ['y'] ['y'] (fun _ => .ok ['y']) dummySumm dummySumm
    (by decide) rfl (by decide)

theorem stepOut_assoc (o : TickOutcome) (k1 k2 : Option (List Char) → TickOutcome) :
    stepOut (stepOut o k1) k2 = stepOut o (fun l => stepOut (k1 l) k2) := by
  cases o with
  | ok s l =>
    cases h1 : k1 l with
    | ok s1 l1 =>
      cases h2 : k2 l1 <;> simp [stepOut, h1, h2, List.append_assoc]
    | err s1 l1 e => simp [stepOut, h1]
    | panicked s1 => simp [stepOut, h1]
  | err s l e => simp [stepOut]
  | panicked s => simp [stepOut]

theorem runLoop_append (sendOk : Bool) (xs ys : List TickInput) (l0 : Option (List Char)) :
    runLoop sendOk (xs ++ ys) l0 = stepOut (runLoop sendOk xs l0) (runLoop sendOk ys) := by
  induction xs generalizing l0 with
  | nil =>
    simp only [List.nil_append, runLoop]
    cases h : runLoop sendOk ys l0 <;> simp [stepOut, h]
  | cons i xs ih =>
    simp only [List.cons_append, runLoop]
    rw [stepOut_assoc]
    congr 1
    funext l
    exact ih l

/-- C9. A tick whose `get_diff` fails, or whose summarizer call fails on a
fresh non-empty diff, stops the loop with that error wrapped in its
context: the messages produced are exactly those of the preceding ticks,
`last_diff` is the value the preceding ticks left, and the outcome does
not depend on the ticks that would have followed. -/
theorem pollLoop_fatal (pre post : List TickInput) (i : TickInput)
    (l0 l : Option (List Char)) (ms : List (Option (List Char)))
    (hpre : runLoop true pre l0 = .ok ms l) :
    (∀ e, i.diffRes = .error e →
        runLoop true (pre ++ i :: post) l0 = .err ms l ("failed to get diff: " ++ e)) ∧
      (∀ d e, i.diffRes = .ok d → d ≠ [] → some d ≠ l → i.summRes d = .error e →
        runLoop true (pre ++ i :: post) l0 = .err ms l ("failed to run prompt: " ++ e)) := by
  constructor
  · intro e he
    rw [runLoop_append, hpre]
    have ht : tick true i l = .err [] l ("failed to get diff: " ++ e) := by
      unfold tick
      rw [he]
    simp [stepOut, runLoop, ht]
  · intro d e hd hdne hne hs
    rw [runLoop_append, hpre]
    have ht : tick true i l = .err [] l ("failed to run prompt: " ++ e) := by
      unfold tick
      rw [hd]
      simp [hdne, hne, hs]
    simp [stepOut, runLoop, ht]

/-- C9 witness: a failing `get_diff` after one successful empty tick stops
the loop, keeps only the clear message sent so far, and the trailing tick
never runs. -/
theorem pollLoop_fatal_witness :
    runLoop true ([⟨.ok [], dummySumm⟩] ++ ⟨.error "io", dummySumm⟩ :: [⟨.ok ['x'], dummySumm⟩])
        none = .err [none] none ("failed to get diff: " ++ "io") :=
  (pollLoop_fatal [⟨.ok [], dummySumm⟩] [⟨.ok ['x'], dummySumm⟩] ⟨.error "io", dummySumm⟩
      none none [none] (by rfl)).1
    "io" rfl

/-- Shape of every tick outcome: a panic, a completion or error keeping
`last_diff` unchanged, or a completion recording a non-empty diff. -/
theorem tick_shape (sendOk : Bool) (dr : Except String (List Char))
    (sr : List Char → Except String (List Char)) (last : Option (List Char)) :
    (∃ s, tick sendOk ⟨dr, sr⟩ last = .panicked s) ∨
      (∃ s, tick sendOk ⟨dr, sr⟩ last = .ok s last) ∨
      (∃ s e, tick sendOk ⟨dr, sr⟩ last = .err s last e) ∨
      (∃ s d, d ≠ [] ∧ tick sendOk ⟨dr, sr⟩ last = .ok s (some d)) := by
  cases dr with
  | error e =>
    exact .inr (.inr (.inl ⟨[], "failed to get diff: " ++ e, by unfold tick; rfl⟩))
  | ok diff =>
    by_cases hemp : diff = []
    · subst hemp
      cases sendOk
      · exact .inl ⟨[], by unfold tick; rfl⟩
      · exact .inr (.inl ⟨[none], by unfold tick; rfl⟩)
    · by_cases hlast : some diff = last
      · exact .inr (.inl ⟨[], by unfold tick; simp [hemp, hlast]⟩)
      · cases hsr : sr diff with
        | error e =>
          exact .inr (.inr (.inl ⟨[], "failed to run prompt: " ++ e,
            by unfold tick; simp [hemp, hlast, hsr]⟩))
        | ok r =>
          cases htr : rustTruncate 120 r with
          | none =>
            exact .inl ⟨[], by unfold tick; simp [hemp, hlast, hsr, htr]⟩
          | some t =>
            cases sendOk
            · exact .inl ⟨[], by unfold tick; simp [hemp, hlast, hsr, htr]⟩
            · exact .inr (.inr (.inr ⟨[some t], diff, hemp,
                by unfold tick; simp [hemp, hlast, hsr, htr]⟩))

/-- C6. Every tick preserves the `last_diff` invariant: starting from a
`last_diff` that is `None` or a non-empty diff, any completed or errored
tick leaves a `last_diff` that is again `None` or a non-empty diff; the
empty diff is never recorded. -/
theorem tick_lastSeen_nonempty (sendOk : Bool) (i : TickInput) (last : Option (List Char))
    (hinv : ∀ d, last = some d → d ≠ [])
    (s : List (Option (List Char))) (l' : Option (List Char))
    (h : tick sendOk i last = .ok s l' ∨ ∃ e, tick sendOk i last = .err s l' e) :
    l' = none ∨ ∃ d, l' = some d ∧ d ≠ [] := by
  have hlast : last = none ∨ ∃ d, last = some d ∧ d ≠ [] := by
    cases last with
    | none => exact .inl rfl
    | some d => exact .inr ⟨d, rfl, hinv d rfl⟩
  obtain ⟨dr, sr⟩ := i
  rcases tick_shape sendOk dr sr last with ⟨s0, h0⟩ | ⟨s0, h0⟩ | ⟨s0, e0, h0⟩ | ⟨s0, d0, hd0, h0⟩ <;>
    rcases h with h | ⟨e1, h⟩ <;> rw [h0] at h
  · exact absurd h (by simp)
  · exact absurd h (by simp)
  · injection h with h1 h2
    subst h2
    exact hlast
  · exact absurd h (by simp)
  · exact absurd h (by simp)
  · injection h with h1 h2 h3
    subst h2
    exact hlast
  · injection h with h1 h2
    subst h2
    exact .inr ⟨d0, rfl, hd0⟩
  · exact absurd h (by simp)

/-- C6 witness: from `last_diff = None`, a tick that records the diff `x`
leaves a non-empty `last_diff`. -/
theorem tick_lastSeen_nonempty_witness :
    (some ['x'] : Option (List Char)) = none ∨
      ∃ d, (some ['x'] : Option (List Char)) = some d ∧ d ≠ [] :=
  tick_lastSeen_nonempty true ⟨.ok ['x'], fun _ => .ok ['y']⟩ none (by simp)
    [some ['y']] (some ['x']) (.inl (by decide))

theorem sessionConsume_all_ok (oracle : Command → Except String Unit) :
    ∀ msgs : List (Option (List Char)), (∀ m ∈ msgs, oracle (toCommand m) = .ok ()) →
      sessionConsume oracle msgs =
        (joinContext (oracle .blockOn), msgs.map toCommand ++ [Command.blockOn]) := by
  intro msgs
  induction msgs with
  | nil => intro _; rfl
  | cons m rest ih =>
    intro h
    have hm : oracle (toCommand m) = .ok () := h m (by simp)
    simp only [sessionConsume, hm, ih (fun j hj => h j (by simp [hj])), List.map_cons,
      List.cons_append]

theorem sessionConsume_err (oracle : Command → Except String Unit)
    (m : Option (List Char)) (e : String) :
    ∀ pre post, (∀ j ∈ pre, oracle (toCommand j) = .ok ()) →
      oracle (toCommand m) = .error e →
      sessionConsume oracle (pre ++ m :: post) =
        (.error (cmdContext m ++ ": " ++ e), pre.map toCommand ++ [toCommand m]) := by
  intro pre
  induction pre with
  | nil =>
    intro post _ hm
    simp only [List.nil_append, sessionConsume, hm, List.map_nil]
  | cons j pre ih =>
    intro post h hm
    have hj : oracle (toCommand j) = .ok () := h j (by simp)
    have ihp := ih post (fun x hx => h x (by simp [hx])) hm
    simp [sessionConsume, hj, ihp]

/-- C7. When every activity command is accepted, the session thread issues
exactly one command per message sent, in the order the messages were sent,
with nothing dropped and nothing coalesced, followed by the single final
join. -/
theorem session_applies_in_order (oracle : Command → Except String Unit)
    (msgs : List (Option (List Char)))
    (h : ∀ m ∈ msgs, oracle (toCommand m) = .ok ()) :
    (rpc_thread (.ok ()) oracle msgs).2 = msgs.map toCommand ++ [Command.blockOn] := by
  show (sessionConsume oracle msgs).2 = _
  rw [sessionConsume_all_ok oracle msgs h]

/-- Command oracle that accepts every RPC command. -/
def okOracle : Command → Except String Unit :=
  fun _ => .ok ()

/-- C7 witness: a set followed by a clear is applied as set then clear. -/
theorem session_applies_in_order_witness :
    (rpc_thread (.ok ()) okOracle [some ['a'], none]).2 =
      List.map toCommand [some ['a'], none] ++ [Command.blockOn] :=
  session_applies_in_order okOracle [some ['a'], none] (fun _ _ => rfl)

/-- C8. When the producer side closes after `msgs` were sent and every
activity command is accepted, the session thread applies every sent
message in order, then performs exactly one final blocking join, and its
function returns with the join result; no sent message is lost. -/
theorem session_drain (oracle : Command → Except String Unit)
    (msgs : List (Option (List Char)))
    (h : ∀ m ∈ msgs, oracle (toCommand m) = .ok ()) :
    rpc_thread (.ok ()) oracle msgs =
        (joinContext (oracle .blockOn), msgs.map toCommand ++ [Command.blockOn]) ∧
      (msgs.map toCommand ++ [Command.blockOn]).count Command.blockOn = 1 := by
  refine ⟨?_, ?_⟩
  · show sessionConsume oracle msgs = _
    exact sessionConsume_all_ok oracle msgs h
  · rw [List.count_append]
    have hz : (msgs.map toCommand).count Command.blockOn = 0 := by
      rw [List.count_eq_zero]
      intro hmem
      obtain ⟨m, _, hm⟩ := List.mem_map.mp hmem
      cases m <;> simp [toCommand] at hm
    rw [hz]
    rfl

/-- C8 witness: one sent activity is applied, then the single join runs
and the thread function returns successfully. -/
theorem session_drain_witness :
    rpc_thread (.ok ()) okOracle [some ['a']] =
        (joinContext (okOracle .blockOn), List.map toCommand [some ['a']] ++ [Command.blockOn]) ∧
      (List.map toCommand [some ['a']] ++ [Command.blockOn]).count Command.blockOn = 1 :=
  session_drain okOracle [some ['a']] (fun _ _ => rfl)

/-- C2 (amended). A failing set-activity or clear-activity command makes
the session thread return that error, with its context, right after the
failing command and without reaching the final join. The main thread never
joins the session thread, so this alone does not end the process: with the
channel receiver gone, a deduplicated tick still completes normally, and
the poll loop ends only when a tick next sends a message and panics on the
closed channel. -/
theorem session_error_fatal (oracle : Command → Except String Unit)
    (pre post : List (Option (List Char))) (m : Option (List Char)) (e : String)
    (hpre : ∀ j ∈ pre, oracle (toCommand j) = .ok ())
    (hm : oracle (toCommand m) = .error e) :
    rpc_thread (.ok ()) oracle (pre ++ m :: post) =
        (.error (cmdContext m ++ ": " ++ e), pre.map toCommand ++ [toCommand m]) ∧
      (∀ d summ, d ≠ [] → tick false ⟨.ok d, summ⟩ (some d) = .ok [] (some d)) ∧
      (∀ i : TickInput, i.diffRes = .ok [] → tick false i (some ['x']) = .panicked []) := by
  refine ⟨?_, ?_, ?_⟩
  · show sessionConsume oracle (pre ++ m :: post) = _
    exact sessionConsume_err oracle m e pre post hpre hm
  · intro d summ hd
    unfold tick
    simp [hd]
  · intro i hi
    unfold tick
    rw [hi]
    simp

/-- Command oracle that rejects every RPC command. -/
def failOracle : Command → Except String Unit :=
  fun _ => .error "boom"

/-- C2 witness: a rejected set command ends the session thread with the
context-wrapped error; afterwards a deduplicated tick still completes and
an empty-diff tick panics on its send. -/
theorem session_error_fatal_witness :
    rpc_thread (.ok ()) failOracle [some ['a']] =
        (.error (cmdContext (some ['a']) ++ ": " ++ "boom"),
          List.map toCommand [] ++ [toCommand (some ['a'])]) ∧
      tick false ⟨.ok ['x'], dummySumm⟩ (some ['x']) = .ok [] (some ['x']) ∧
      tick false ⟨.ok [], dummySumm⟩ (some ['x']) = .panicked [] :=
  ⟨(session_error_fatal failOracle [] [] (some ['a']) "boom" (by simp) rfl).1,
    (session_error_fatal failOracle [] [] (some ['a']) "boom" (by simp) rfl).2.1
      ['x'] dummySumm (by decide),
    (session_error_fatal failOracle [] [] (some ['a']) "boom" (by simp) rfl).2.2
      ⟨.ok [], dummySumm⟩ rfl⟩

/-- C2 counterexample. The session thread dies with the command error, yet
the poll loop is not joined on it: three further deduplicated ticks on the
closed channel all complete normally, so the process does not terminate by
any join dependency. -/
theorem session_error_no_join_cex :
    (rpc_thread (.ok ()) failOracle [some ['a']]).1 =
        .error ("failed to set Discord activity" ++ ": " ++ "boom") ∧
      runLoop false [⟨.ok ['x'], dummySumm⟩, ⟨.ok ['x'], dummySumm⟩, ⟨.ok ['x'], dummySumm⟩]
          (some ['x']) = .ok [] (some ['x']) :=
  ⟨rfl, rfl⟩
